import Mathlib

/-!
Verification development for the opportunity extraction and scoring core of
the multilingual-shopping-intel repository. The Python sources embedded here
are src/opportunity_analyzer.py (the basic analyzer), src/opportunity_analyzer_improved.py
(the improved analyzer) and src/config.py. Python dictionaries with a fixed
key set are modelled as structures with Option-typed fields (a missing key is
none); Python strings are Lean strings; Python ints are Int; Python floats
are modelled exactly as rationals.
-/

namespace MSI

/-! ## String primitives mirroring the Python string operations used -/

/-- Bool test that the first list is an initial segment of the second,
modelling the initial-segment comparison underlying Python substring tests. -/
def leadsChars : List Char → List Char → Bool
  | [], _ => true
  | _ :: _, [] => false
  | a :: as, b :: bs => a == b && leadsChars as bs

/-- Bool test that needle occurs contiguously inside hay, modelling the
Python expression needle in hay on strings. -/
def hasSub (hay needle : List Char) : Bool :=
  match hay with
  | [] => needle.isEmpty
  | _ :: rest => leadsChars needle hay || hasSub rest needle

/-- Python substring containment s2 in s1. -/
def strContains (hay needle : String) : Bool :=
  hasSub hay.data needle.data

/-- Value of a list of decimal digit characters. -/
def digitsToNat (ds : List Char) : Nat :=
  ds.foldl (fun acc c => 10 * acc + (c.toNat - 48)) 0

/-- First maximal run of decimal digits in the character list, modelling the
regular expression search for a digit group used by both analyzers. -/
def firstNatChars : List Char → Option Nat
  | [] => none
  | c :: cs =>
    if c.isDigit then some (digitsToNat ((c :: cs).takeWhile Char.isDigit))
    else firstNatChars cs

/-- First integer found in the string, as regex search for a digit group. -/
def firstNat (s : String) : Option Nat :=
  firstNatChars s.data

/-- Characters after the first colon, modelling line.split with a colon and
maxsplit one, taking the second component. -/
def afterFirstColonChars : List Char → List Char
  | [] => []
  | c :: cs => if c = ':' then cs else afterFirstColonChars cs

/-- Text after the first colon of the line. -/
def afterFirstColon (s : String) : String :=
  ⟨afterFirstColonChars s.data⟩

/-- Python strip with a double-quote argument: remove all leading and
trailing double-quote characters. -/
def stripQuotes (s : String) : String :=
  ⟨((s.data.dropWhile (· = '"')).reverse.dropWhile (· = '"')).reverse⟩

/-- Python lower, character by character. The embedding lowers ASCII
letters, which covers every string the claims evaluate. -/
def pyLower (s : String) : String :=
  ⟨s.data.map Char.toLower⟩

/-- Python slice of the first n characters. -/
def pyTake (s : String) (n : ℕ) : String :=
  ⟨s.data.take n⟩

/-- Python strip with no argument: remove leading and trailing whitespace. -/
def pyTrim (s : String) : String :=
  ⟨((s.data.dropWhile Char.isWhitespace).reverse.dropWhile Char.isWhitespace).reverse⟩

/-- Split the character list at every occurrence of the separator. -/
def splitChar (sep : Char) : List Char → List (List Char)
  | [] => [[]]
  | c :: cs =>
    if c = sep then [] :: splitChar sep cs
    else
      match splitChar sep cs with
      | [] => [[c]]
      | g :: gs => (c :: g) :: gs

/-- Python split on a one-character separator, trailing empty piece kept. -/
def pySplitChar (s : String) (sep : Char) : List String :=
  (splitChar sep s.data).map (fun cs => ⟨cs⟩)

/-! ## Data model -/

/-- Engagement sub-record of a signal: a mapping read only at key score with
default zero. -/
structure Engagement where
  score : Option Int
deriving DecidableEq, Repr

/-- A market signal record as consumed by the analyzers. -/
structure Signal where
  source : String
  source_detail : String
  title : String
  content : String
  url : String
  date : String
  market : String
  engagement : Option Engagement
deriving DecidableEq, Repr

/-- The five sub-scores dictionary built by the scorer. -/
structure DScores where
  charter_fit : Int
  customer_evidence : Int
  market_size : Int
  feasibility : Int
  competitive_advantage : Int
deriving DecidableEq, Repr

/-- An opportunity dictionary. Fields are Option-typed: none models an
absent key, matching the Python dict access patterns with .get defaults. -/
structure Opp where
  title : Option String := none
  charter_fit_score : Option Int := none
  customer_pain_point : Option String := none
  proposed_solution : Option String := none
  market_size : Option String := none
  competitive_intelligence : Option String := none
  cultural_context : Option String := none
  charter_expansion_angle : Option String := none
  relevant_signal_indices : Option (List Int) := none
  source_signals : Option (List Signal) := none
  analysis_date : Option String := none
  detailed_scores : Option DScores := none
  composite_score : Option ℚ := none
deriving DecidableEq, Repr

/-- The empty opportunity dictionary. -/
def emptyOpp : Opp := {}

/-! ## Configuration constants from src/config.py -/

/-- config.CHARTER_FIT_THRESHOLD, minimum score to include in brief. -/
def CHARTER_FIT_THRESHOLD : Int := 50

/-- Weight of charter_fit in config.SCORING_CRITERIA. -/
def charterFitWeight : ℚ := 0.30

/-- Weight of customer_evidence in config.SCORING_CRITERIA. -/
def customerEvidenceWeight : ℚ := 0.25

/-- Weight of market_size in config.SCORING_CRITERIA. -/
def marketSizeWeight : ℚ := 0.20

/-- Weight of feasibility in config.SCORING_CRITERIA. -/
def feasibilityWeight : ℚ := 0.15

/-- Weight of competitive_advantage in config.SCORING_CRITERIA. -/
def competitiveAdvantageWeight : ℚ := 0.10

/-! ## Batcher

Both analyzers slice the signal list into contiguous batches: the basic
analyzer in the helper that appends signals sliced i to i plus batch_size for
i in range with step batch_size, and the improved analyzer inline in
analyze_signals with batch size eight. A step of zero raises in Python
(range with zero step); the embedding returns no batches in that case and
all batching claims assume a positive batch size. -/

/-- Slice the list into contiguous batches of size b, mirroring the Python
slicing loop of both analyzers. -/
def batchSignals (b : ℕ) : List α → List (List α)
  | [] => []
  | x :: xs =>
    if b = 0 then []
    else (x :: xs).take b :: batchSignals b ((x :: xs).drop b)
termination_by l => l.length
decreasing_by
  simp only [List.length_drop, List.length_cons]
  omega

theorem batchSignals_nil (b : ℕ) : batchSignals b ([] : List α) = [] := by
  rw [batchSignals]

theorem batchSignals_cons (b : ℕ) (hb : b ≠ 0) (l : List α) (hl : l ≠ []) :
    batchSignals b l = l.take b :: batchSignals b (l.drop b) := by
  match l with
  | [] => exact absurd rfl hl
  | x :: xs =>
    rw [batchSignals]
    simp [hb]

/-- Concatenating all batches reproduces the original list. -/
theorem batchSignals_flatten (b : ℕ) (hb : 1 ≤ b) :
    ∀ (n : ℕ) (l : List α), l.length ≤ n → (batchSignals b l).flatten = l := by
  intro n
  induction n with
  | zero =>
    intro l hl
    have : l = [] := List.eq_nil_of_length_eq_zero (Nat.le_zero.mp hl)
    subst this
    simp [batchSignals_nil]
  | succ n ih =>
    intro l hl
    by_cases h : l = []
    · subst h
      simp [batchSignals_nil]
    · rw [batchSignals_cons b (by omega) l h]
      have hlen : 0 < l.length := List.length_pos.mpr h
      have hdrop : (l.drop b).length ≤ n := by
        rw [List.length_drop]
        omega
      rw [List.flatten_cons, ih (l.drop b) hdrop, List.take_append_drop]

/-- Number of batches is the ceiling of length over batch size. -/
theorem batchSignals_length (b : ℕ) (hb : 1 ≤ b) :
    ∀ (n : ℕ) (l : List α), l.length ≤ n →
      (batchSignals b l).length = (l.length + b - 1) / b := by
  intro n
  induction n with
  | zero =>
    intro l hl
    have : l = [] := List.eq_nil_of_length_eq_zero (Nat.le_zero.mp hl)
    subst this
    rw [batchSignals_nil]
    simp only [List.length_nil]
    rw [Nat.div_eq_of_lt (by omega)]
  | succ n ih =>
    intro l hl
    by_cases h : l = []
    · subst h
      rw [batchSignals_nil]
      simp only [List.length_nil]
      rw [Nat.div_eq_of_lt (by omega)]
    · rw [batchSignals_cons b (by omega) l h]
      have hlen : 0 < l.length := List.length_pos.mpr h
      have hdrop : (l.drop b).length ≤ n := by
        rw [List.length_drop]
        omega
      rw [List.length_cons, ih (l.drop b) hdrop, List.length_drop]
      rcases Nat.lt_or_ge b l.length with hcase | hcase
      · have e1 : l.length - b + b - 1 = (l.length - 1 - b) + b := by omega
        have e2 : l.length + b - 1 = (l.length - 1) + b := by omega
        rw [e1, e2, Nat.add_div_right _ (by omega), Nat.add_div_right _ (by omega)]
        have e4 : (l.length - 1 - b) + b = l.length - 1 := by omega
        have e5 : (l.length - 1) / b = (l.length - 1 - b) / b + 1 := by
          conv_lhs => rw [← e4]
          rw [Nat.add_div_right _ (by omega)]
        omega
      · have e1 : l.length - b = 0 := by omega
        rw [e1]
        have e2 : (0 + b - 1) / b = 0 := Nat.div_eq_of_lt (by omega)
        have e3 : (l.length + b - 1) / b = 1 := by
          apply Nat.div_eq_of_lt_le
          · omega
          · omega
        rw [e2, e3]

/-- Every batch is nonempty and no longer than the batch size. -/
theorem batchSignals_sizes (b : ℕ) (hb : 1 ≤ b) :
    ∀ (n : ℕ) (l : List α), l.length ≤ n →
      ∀ c ∈ batchSignals b l, c.length ≤ b ∧ c ≠ [] := by
  intro n
  induction n with
  | zero =>
    intro l hl c hc
    have : l = [] := List.eq_nil_of_length_eq_zero (Nat.le_zero.mp hl)
    subst this
    simp [batchSignals_nil] at hc
  | succ n ih =>
    intro l hl c hc
    by_cases h : l = []
    · subst h
      simp [batchSignals_nil] at hc
    · rw [batchSignals_cons b (by omega) l h] at hc
      have hlen : 0 < l.length := List.length_pos.mpr h
      have hdrop : (l.drop b).length ≤ n := by
        rw [List.length_drop]
        omega
      rcases List.mem_cons.mp hc with hc | hc
      · subst hc
        constructor
        · rw [List.length_take]
          omega
        · intro hnil
          have : (l.take b).length = 0 := by rw [hnil]; rfl
          rw [List.length_take] at this
          omega
      · exact ih (l.drop b) hdrop c hc

/-! ## Deduplicators

The improved analyzer keys each opportunity by the lowercased then
whitespace-stripped then fifty-character-truncated title and keeps the first
occurrence of each nonempty key. The basic analyzer keys by the lowercased
fifty-character-truncated title with no whitespace stripping and keeps the
first occurrence of every key, including the empty key. -/

/-- Title key of the improved deduplicator: opp.get title default empty,
then lower, then strip, then first fifty characters. -/
def titleKey (o : Opp) : String :=
  pyTake (pyTrim (pyLower (o.title.getD ""))) 50

/-- Title key of the basic deduplicator: title, lower, first fifty
characters, with no strip. The source indexes the title key directly; a
missing title raises there, so the embedding reads the field with an empty
default and all statements about it use candidates whose title is present. -/
def titleKeyBasic (o : Opp) : String :=
  pyTake (pyLower (o.title.getD "")) 50

/-- Loop of the improved deduplicator with its seen-titles set. -/
def dedupAux : List String → List Opp → List Opp
  | _, [] => []
  | seen, o :: rest =>
    if titleKey o ≠ "" ∧ titleKey o ∉ seen then o :: dedupAux (titleKey o :: seen) rest
    else dedupAux seen rest

/-- The improved analyzer deduplication. -/
def dedupImproved (l : List Opp) : List Opp :=
  dedupAux [] l

/-- Loop of the basic deduplicator with its seen-titles set. -/
def dedupBasicAux : List String → List Opp → List Opp
  | _, [] => []
  | seen, o :: rest =>
    if titleKeyBasic o ∉ seen then o :: dedupBasicAux (titleKeyBasic o :: seen) rest
    else dedupBasicAux seen rest

/-- The basic analyzer deduplication. -/
def dedupBasic (l : List Opp) : List Opp :=
  dedupBasicAux [] l

/-- Fuel-indexed helper for the spec-side deduplication; the fuel only
bounds the recursion depth and any fuel at least the list length gives the
same result. -/
def specDedupF : ℕ → List Opp → List Opp
  | _, [] => []
  | 0, _ :: _ => []
  | fuel + 1, o :: rest =>
    if titleKey o = "" then specDedupF fuel rest
    else o :: specDedupF fuel (rest.filter (fun p => decide (titleKey p ≠ titleKey o)))

/-- Modelled from the spec: first-seen-wins deduplication described in the
spec, keeping for each nonempty title key only the first candidate carrying
it and dropping every candidate whose title key is empty. -/
def specDedup (l : List Opp) : List Opp :=
  specDedupF l.length l

theorem specDedupF_fuel :
    ∀ (fuel fuel2 : ℕ) (l : List Opp), l.length ≤ fuel → l.length ≤ fuel2 →
      specDedupF fuel l = specDedupF fuel2 l := by
  intro fuel
  induction fuel with
  | zero =>
    intro fuel2 l hl hl2
    have : l = [] := List.eq_nil_of_length_eq_zero (Nat.le_zero.mp hl)
    subst this
    cases fuel2 <;> rfl
  | succ fuel ih =>
    intro fuel2 l hl hl2
    match l with
    | [] => cases fuel2 <;> rfl
    | o :: rest =>
      match fuel2 with
      | 0 => simp at hl2
      | f2 + 1 =>
        simp only [specDedupF]
        have hr : rest.length ≤ fuel := by
          simp only [List.length_cons] at hl
          omega
        have hr2 : rest.length ≤ f2 := by
          simp only [List.length_cons] at hl2
          omega
        have hf : (rest.filter (fun p => decide (titleKey p ≠ titleKey o))).length ≤ rest.length :=
          List.length_filter_le _ _
        by_cases hk : titleKey o = ""
        · rw [if_pos hk, if_pos hk]
          exact ih f2 rest hr hr2
        · rw [if_neg hk, if_neg hk]
          rw [ih f2 _ (le_trans hf hr) (le_trans hf hr2)]

theorem specDedup_nil : specDedup [] = [] := rfl

theorem specDedup_cons (o : Opp) (rest : List Opp) :
    specDedup (o :: rest) =
      if titleKey o = "" then specDedup rest
      else o :: specDedup (rest.filter (fun p => decide (titleKey p ≠ titleKey o))) := by
  show specDedupF (rest.length + 1) (o :: rest) = _
  simp only [specDedupF]
  by_cases hk : titleKey o = ""
  · rw [if_pos hk, if_pos hk]
    rfl
  · rw [if_neg hk, if_neg hk]
    rw [specDedupF_fuel rest.length
      (rest.filter (fun p => decide (titleKey p ≠ titleKey o))).length _
      (List.length_filter_le _ _) (le_refl _)]
    rfl

/-- The improved deduplication loop equals the spec-side deduplication of
the input with already-seen keys filtered away. -/
theorem dedupAux_eq_specDedup (l : List Opp) :
    ∀ seen : List String,
      dedupAux seen l = specDedup (l.filter (fun o => decide (titleKey o ∉ seen))) := by
  induction l with
  | nil =>
    intro seen
    simp [dedupAux, specDedup_nil]
  | cons o rest ih =>
    intro seen
    by_cases hseen : titleKey o ∈ seen
    · rw [List.filter_cons_of_neg (by simp [hseen])]
      rw [show dedupAux seen (o :: rest) = dedupAux seen rest by
        simp [dedupAux, hseen]]
      exact ih seen
    · rw [List.filter_cons_of_pos (by simp [hseen])]
      by_cases hk : titleKey o = ""
      · rw [specDedup_cons, if_pos hk]
        rw [show dedupAux seen (o :: rest) = dedupAux seen rest by
          simp [dedupAux, hk]]
        exact ih seen
      · rw [specDedup_cons, if_neg hk]
        rw [show dedupAux seen (o :: rest) = o :: dedupAux (titleKey o :: seen) rest by
          simp [dedupAux, hk, hseen]]
        rw [ih (titleKey o :: seen)]
        have hfl : rest.filter (fun p => decide (titleKey p ∉ titleKey o :: seen)) =
            (rest.filter (fun p => decide (titleKey p ∉ seen))).filter
              (fun p => decide (titleKey p ≠ titleKey o)) := by
          rw [List.filter_filter]
          apply List.filter_congr
          intro p _
          by_cases h1 : titleKey p = titleKey o <;> by_cases h2 : titleKey p ∈ seen <;>
            simp [h1, h2]
        rw [hfl]

/-- C2: for every input sequence of signals and every batch size of at
least one, the batcher produces ceil(N/B) contiguous, non-overlapping
slices in original order whose concatenation equals the input sequence
exactly, every batch (the last included) has size at most B, and an empty
input yields zero batches. -/
theorem batcher_contract {α : Type} (signals : List α) (b : ℕ) (hb : 1 ≤ b) :
    (batchSignals b signals).flatten = signals ∧
    (batchSignals b signals).length = (signals.length + b - 1) / b ∧
    (∀ c ∈ batchSignals b signals, c.length ≤ b) ∧
    batchSignals b ([] : List α) = [] :=
  ⟨batchSignals_flatten b hb signals.length signals (le_refl _),
   batchSignals_length b hb signals.length signals (le_refl _),
   fun c hc => (batchSignals_sizes b hb signals.length signals (le_refl _) c hc).1,
   batchSignals_nil b⟩

/-- Witness for the batching contract at a concrete seven-element input
with batch size three. -/
theorem batcher_contract_witness :
    1 ≤ 3 ∧ (batchSignals 3 [0, 1, 2, 3, 4, 5, 6]).flatten = [0, 1, 2, 3, 4, 5, 6] ∧
      (batchSignals 3 [0, 1, 2, 3, 4, 5, 6]).length = 3 :=
  ⟨by decide,
   (batcher_contract [0, 1, 2, 3, 4, 5, 6] 3 (by decide)).1,
   ((batcher_contract [0, 1, 2, 3, 4, 5, 6] 3 (by decide)).2.1).trans (by decide)⟩

/-- C3 (amended): the improved analyzer deduplication keys each candidate
by the lowercased, whitespace-trimmed title truncated to fifty characters,
keeps only the first candidate encountered for each key regardless of
score, and drops entirely every candidate whose title key is empty. -/
theorem dedup_improved_first_seen (l : List Opp) :
    dedupImproved l = specDedup l := by
  rw [dedupImproved, dedupAux_eq_specDedup l []]
  congr 1
  apply List.filter_eq_self.mpr
  intro o _
  simp

/-- C3 counterexample: the basic analyzer deduplication keeps a candidate
whose title key is empty instead of dropping it. -/
theorem dedup_basic_keeps_empty_title :
    titleKeyBasic { title := some "" } = "" ∧
    dedupBasic [({ title := some "" } : Opp)] = [({ title := some "" } : Opp)] := by
  constructor
  · rfl
  · rfl

/-! ## Market-size scorers -/

/-- The improved analyzer market-size scorer: lower the market_size text
read with an empty default, then apply the keyword tiers, each tier testing
whether any term of its list occurs in the text. -/
def scoreMarketSize (o : Opp) : Int :=
  let t := pyLower (o.market_size.getD "")
  if ["billion", "$b", "bn"].any (fun term => strContains t term) then 95
  else if ["million", "$m", "mn", "$100", "$200", "$300", "$400"].any
      (fun term => strContains t term) then 85
  else if ["large", "significant", "substantial"].any
      (fun term => strContains t term) then 75
  else if t ≠ "" then 65
  else 55

/-- The basic analyzer market-size scorer, with its looser dollar-token
tests and a final default of sixty for everything else, empty included. -/
def scoreMarketSizeBasic (o : Opp) : Int :=
  let t := pyLower (o.market_size.getD "")
  if strContains t "billion" || (strContains t "$" && (strContains t "b" || strContains t "bn")) then 95
  else if strContains t "million" || (strContains t "$" && (strContains t "m" || strContains t "mn")) then 85
  else if strContains t "large" || strContains t "significant" then 75
  else 60

/-- Modelled from the spec: the keyword tier table of the spec for the
market-size sub-score, over the lowercased market-size text. -/
def specMarketTier (text : String) : Int :=
  let t := pyLower text
  if strContains t "billion" || strContains t "$b" || strContains t "bn" then 95
  else if strContains t "million" || strContains t "$m" || strContains t "mn" ||
      strContains t "$100" || strContains t "$200" || strContains t "$300" ||
      strContains t "$400" then 85
  else if strContains t "large" || strContains t "significant" ||
      strContains t "substantial" then 75
  else if t ≠ "" then 65
  else 55

/-- C4 (amended): the improved analyzer market-size sub-score is determined
solely by the spec keyword tiers over the lowercased market-size text, with
the stated tier values 95, 85, 75, 65 and 55. -/
theorem market_size_tiers (o : Opp) :
    scoreMarketSize o = specMarketTier (o.market_size.getD "") := by
  simp only [scoreMarketSize, specMarketTier, List.any_cons, List.any_nil,
    Bool.or_false, Bool.or_assoc]

/-- C4 counterexample: the basic analyzer market-size scorer gives an empty
market-size text the score 60, not the 55 the claim states. -/
theorem market_size_basic_empty_not_55 :
    scoreMarketSizeBasic emptyOpp ≠ 55 ∧ scoreMarketSizeBasic emptyOpp = 60 := by
  constructor
  · decide
  · decide

/-! ## Scorer and ranker -/

/-- Python int conversion of a float, truncation toward zero, on the exact
rational value. -/
def pyInt (q : ℚ) : Int :=
  if q < 0 then -(Int.floor (-q)) else Int.floor q

/-- Engagement score of a signal: the score entry of the engagement mapping
with default zero when either is missing. -/
def engagementScore (s : Signal) : Int :=
  match s.engagement with
  | some e => e.score.getD 0
  | none => 0

/-- The improved analyzer customer-evidence scorer: sixty with no source
signals, otherwise fifty plus capped signal-count and engagement terms. -/
def scoreCustomerEvidence (o : Opp) : Int :=
  let signals := o.source_signals.getD []
  if signals = [] then 60
  else
    let total : ℚ := ((signals.map engagementScore).sum : Int)
    let avg : ℚ := total / (signals.length : ℚ)
    let score : ℚ := 50 + min 30 ((signals.length : ℚ) * 6) + min 20 (avg / 20)
    pyInt (min 100 score)

/-- The basic analyzer customer-evidence scorer, with its diverging
constants: fifty with no signals, count times five and engagement over ten. -/
def scoreCustomerEvidenceBasic (o : Opp) : Int :=
  let signals := o.source_signals.getD []
  if signals = [] then 50
  else
    let avg : ℚ := (((signals.map engagementScore).sum : Int) : ℚ) / (signals.length : ℚ)
    pyInt (min 100 (50 + (signals.length : ℚ) * 5 + avg / 10))

/-- Python round of a float to one decimal place, modelled on the exact
rational value as rounding to the nearest tenth. Python rounds exact ties
of the underlying binary float to even; no claim depends on the tie rule,
and the bounds proved below hold for either rule. -/
def round1 (q : ℚ) : ℚ :=
  ((round (10 * q) : ℤ) : ℚ) / 10

/-- The five sub-scores that the improved analyzer computes per
opportunity. -/
def detailedScores (o : Opp) : DScores where
  charter_fit := o.charter_fit_score.getD 50
  customer_evidence := scoreCustomerEvidence o
  market_size := scoreMarketSize o
  feasibility := 75
  competitive_advantage := 70

/-- The five sub-scores that the basic analyzer computes per opportunity. -/
def detailedScoresBasic (o : Opp) : DScores where
  charter_fit := o.charter_fit_score.getD 50
  customer_evidence := scoreCustomerEvidenceBasic o
  market_size := scoreMarketSizeBasic o
  feasibility := 75
  competitive_advantage := 70

/-- Weighted composite of the five sub-scores with the configured weights. -/
def compositeOf (s : DScores) : ℚ :=
  (s.charter_fit : ℚ) * charterFitWeight
    + (s.customer_evidence : ℚ) * customerEvidenceWeight
    + (s.market_size : ℚ) * marketSizeWeight
    + (s.feasibility : ℚ) * feasibilityWeight
    + (s.competitive_advantage : ℚ) * competitiveAdvantageWeight

/-- Scoring of one opportunity by the improved analyzer: set the composite
score rounded to one decimal and the detailed scores, leaving every other
field unchanged. -/
def scoreOne (o : Opp) : Opp :=
  { o with
    composite_score := some (round1 (compositeOf (detailedScores o)))
    detailed_scores := some (detailedScores o) }

/-- Scoring of one opportunity by the basic analyzer. -/
def scoreOneBasic (o : Opp) : Opp :=
  { o with
    composite_score := some (round1 (compositeOf (detailedScoresBasic o)))
    detailed_scores := some (detailedScoresBasic o) }

/-- The improved analyzer scorer and ranker: score every opportunity, then
stable-sort descending by composite score. The all_signals parameter of the
source is kept although the source never reads it. -/
def scoreAndRank (l : List Opp) (_allSignals : List Signal) : List Opp :=
  (l.map scoreOne).mergeSort
    (fun a b => decide ((b.composite_score.getD 0) ≤ (a.composite_score.getD 0)))

/-- The basic analyzer scorer and ranker. The sort key there indexes the
composite score directly; after the scoring loop the key is always present,
so the embedding reads it with a default of zero. -/
def scoreOpportunitiesBasic (l : List Opp) : List Opp :=
  (l.map scoreOneBasic).mergeSort
    (fun a b => decide ((b.composite_score.getD 0) ≤ (a.composite_score.getD 0)))

theorem round1_bounds (q : ℚ) (h0 : 0 ≤ q) (h100 : q ≤ 100) :
    0 ≤ round1 q ∧ round1 q ≤ 100 := by
  unfold round1
  constructor
  · apply div_nonneg _ (by norm_num)
    have h : (0 : ℤ) ≤ round (10 * q) := by
      rw [round_eq]
      apply Int.le_floor.mpr
      push_cast
      linarith
    exact_mod_cast h
  · rw [div_le_iff₀ (by norm_num)]
    have h : round (10 * q) ≤ 1000 := by
      rw [round_eq]
      calc Int.floor (10 * q + 1 / 2) ≤ Int.floor ((2001 : ℚ) / 2) :=
            Int.floor_le_floor (by linarith)
        _ = 1000 := by norm_num
    calc ((round (10 * q) : ℤ) : ℚ) ≤ ((1000 : ℤ) : ℚ) := by exact_mod_cast h
      _ = 100 * 10 := by norm_num

theorem compositeOf_bounds (s : DScores)
    (h1 : 0 ≤ s.charter_fit ∧ s.charter_fit ≤ 100)
    (h2 : 0 ≤ s.customer_evidence ∧ s.customer_evidence ≤ 100)
    (h3 : 0 ≤ s.market_size ∧ s.market_size ≤ 100)
    (h4 : 0 ≤ s.feasibility ∧ s.feasibility ≤ 100)
    (h5 : 0 ≤ s.competitive_advantage ∧ s.competitive_advantage ≤ 100) :
    0 ≤ compositeOf s ∧ compositeOf s ≤ 100 := by
  have c1l : (0 : ℚ) ≤ (s.charter_fit : ℚ) := by exact_mod_cast h1.1
  have c1u : (s.charter_fit : ℚ) ≤ 100 := by exact_mod_cast h1.2
  have c2l : (0 : ℚ) ≤ (s.customer_evidence : ℚ) := by exact_mod_cast h2.1
  have c2u : (s.customer_evidence : ℚ) ≤ 100 := by exact_mod_cast h2.2
  have c3l : (0 : ℚ) ≤ (s.market_size : ℚ) := by exact_mod_cast h3.1
  have c3u : (s.market_size : ℚ) ≤ 100 := by exact_mod_cast h3.2
  have c4l : (0 : ℚ) ≤ (s.feasibility : ℚ) := by exact_mod_cast h4.1
  have c4u : (s.feasibility : ℚ) ≤ 100 := by exact_mod_cast h4.2
  have c5l : (0 : ℚ) ≤ (s.competitive_advantage : ℚ) := by exact_mod_cast h5.1
  have c5u : (s.competitive_advantage : ℚ) ≤ 100 := by exact_mod_cast h5.2
  unfold compositeOf charterFitWeight customerEvidenceWeight marketSizeWeight
    feasibilityWeight competitiveAdvantageWeight
  norm_num
  constructor
  · nlinarith
  · nlinarith

/-- C1: the scorer sets composite_score to the weighted sum of the five
sub-scores with the configured weights, rounded to one decimal place; the
weights sum to one; and for sub-scores each within zero and one hundred the
composite score also lies within zero and one hundred. -/
theorem composite_score_formula (o : Opp)
    (h1 : 0 ≤ (detailedScores o).charter_fit ∧ (detailedScores o).charter_fit ≤ 100)
    (h2 : 0 ≤ (detailedScores o).customer_evidence ∧ (detailedScores o).customer_evidence ≤ 100)
    (h3 : 0 ≤ (detailedScores o).market_size ∧ (detailedScores o).market_size ≤ 100)
    (h4 : 0 ≤ (detailedScores o).feasibility ∧ (detailedScores o).feasibility ≤ 100)
    (h5 : 0 ≤ (detailedScores o).competitive_advantage ∧
      (detailedScores o).competitive_advantage ≤ 100) :
    (scoreOne o).composite_score =
      some (round1 (((detailedScores o).charter_fit : ℚ) * charterFitWeight
        + ((detailedScores o).customer_evidence : ℚ) * customerEvidenceWeight
        + ((detailedScores o).market_size : ℚ) * marketSizeWeight
        + ((detailedScores o).feasibility : ℚ) * feasibilityWeight
        + ((detailedScores o).competitive_advantage : ℚ) * competitiveAdvantageWeight)) ∧
    charterFitWeight + customerEvidenceWeight + marketSizeWeight + feasibilityWeight
      + competitiveAdvantageWeight = 1 ∧
    0 ≤ round1 (compositeOf (detailedScores o)) ∧
    round1 (compositeOf (detailedScores o)) ≤ 100 := by
  have hb := compositeOf_bounds (detailedScores o) h1 h2 h3 h4 h5
  have hr := round1_bounds (compositeOf (detailedScores o)) hb.1 hb.2
  exact ⟨rfl, by norm_num [charterFitWeight, customerEvidenceWeight, marketSizeWeight,
    feasibilityWeight, competitiveAdvantageWeight], hr.1, hr.2⟩

/-- Witness for the composite score formula and bounds at a concrete
opportunity with charter fit eighty and every other field defaulted. -/
theorem composite_score_formula_witness :
    (0 ≤ (detailedScores { charter_fit_score := some 80 }).charter_fit ∧
      (detailedScores { charter_fit_score := some 80 }).charter_fit ≤ 100) ∧
    0 ≤ round1 (compositeOf (detailedScores { charter_fit_score := some 80 })) ∧
    round1 (compositeOf (detailedScores { charter_fit_score := some 80 })) ≤ 100 :=
  ⟨by decide,
   (composite_score_formula { charter_fit_score := some 80 } (by decide) (by decide)
     (by decide) (by decide) (by decide)).2.2⟩

/-- C10: both scorer and ranker stages only add the detailed_scores and
composite_score fields and reorder: the output is a permutation of the
scored inputs and scoring changes no other field of any candidate. -/
theorem scorer_frame_effect (l : List Opp) (allSignals : List Signal) :
    List.Perm (scoreAndRank l allSignals) (l.map scoreOne) ∧
    List.Perm (scoreOpportunitiesBasic l) (l.map scoreOneBasic) ∧
    ∀ o : Opp,
      ((scoreOne o).title = o.title ∧
       (scoreOne o).charter_fit_score = o.charter_fit_score ∧
       (scoreOne o).customer_pain_point = o.customer_pain_point ∧
       (scoreOne o).proposed_solution = o.proposed_solution ∧
       (scoreOne o).market_size = o.market_size ∧
       (scoreOne o).competitive_intelligence = o.competitive_intelligence ∧
       (scoreOne o).cultural_context = o.cultural_context ∧
       (scoreOne o).charter_expansion_angle = o.charter_expansion_angle ∧
       (scoreOne o).source_signals = o.source_signals ∧
       (scoreOne o).analysis_date = o.analysis_date) ∧
      ((scoreOneBasic o).title = o.title ∧
       (scoreOneBasic o).charter_fit_score = o.charter_fit_score ∧
       (scoreOneBasic o).customer_pain_point = o.customer_pain_point ∧
       (scoreOneBasic o).proposed_solution = o.proposed_solution ∧
       (scoreOneBasic o).market_size = o.market_size ∧
       (scoreOneBasic o).competitive_intelligence = o.competitive_intelligence ∧
       (scoreOneBasic o).cultural_context = o.cultural_context ∧
       (scoreOneBasic o).charter_expansion_angle = o.charter_expansion_angle ∧
       (scoreOneBasic o).source_signals = o.source_signals ∧
       (scoreOneBasic o).analysis_date = o.analysis_date) :=
  ⟨List.mergeSort_perm _ _, List.mergeSort_perm _ _,
   fun _ => ⟨⟨rfl, rfl, rfl, rfl, rfl, rfl, rfl, rfl, rfl, rfl⟩,
             ⟨rfl, rfl, rfl, rfl, rfl, rfl, rfl, rfl, rfl, rfl⟩⟩⟩

/-- C5 (amended): the scorer and ranker never discards a candidate: every
candidate that survives deduplication appears, scored, in the output,
regardless of its charter fit score. -/
theorem scorer_never_drops (l : List Opp) (allSignals : List Signal) :
    (scoreAndRank l allSignals).length = l.length ∧
    ∀ o, o ∈ l → scoreOne o ∈ scoreAndRank l allSignals := by
  have hp : List.Perm (scoreAndRank l allSignals) (l.map scoreOne) :=
    List.mergeSort_perm _ _
  constructor
  · rw [hp.length_eq, List.length_map]
  · intro o ho
    exact hp.mem_iff.mpr (List.mem_map_of_mem scoreOne ho)

/-- Witness: a candidate with charter fit zero, far below the configured
threshold, still appears in the scored output. -/
theorem scorer_never_drops_witness :
    scoreOne { charter_fit_score := some 0 } ∈
      scoreAndRank [{ charter_fit_score := some 0 }] [] :=
  (scorer_never_drops [{ charter_fit_score := some 0 }] []).2 _ (by simp)

/-! ## Signal-index resolution and batch enrichment -/

/-- Resolution of one-based relevant_signal_indices against a batch: the
comprehension keeps each index i with 0 < i and i at most the batch length
and reads the signal at position i minus one. -/
def resolveIndices (signals : List Signal) (idxs : List Int) : List Signal :=
  idxs.filterMap (fun i =>
    if 0 < i ∧ i ≤ (signals.length : Int) then signals[(i - 1).toNat]? else none)

/-- Source signals of a candidate after resolution: the resolved list, or
the first three signals of the batch when nothing resolved. -/
def sourceSignalsFor (signals : List Signal) (idxs : List Int) : List Signal :=
  if resolveIndices signals idxs = [] then signals.take 3
  else resolveIndices signals idxs

/-- Enrichment of one parsed candidate inside the batch loop of the
improved analyzer: set source_signals from the resolved indices and stamp
the analysis date. -/
def enrichOpp (batch : List Signal) (now : String) (o : Opp) : Opp :=
  { o with
    source_signals := some (sourceSignalsFor batch (o.relevant_signal_indices.getD []))
    analysis_date := some now }

/-- A concrete signal used by witnesses. -/
def demoSignal (t : String) : Signal :=
  { source := "reddit", source_detail := "r/test", title := t, content := "content",
    url := "https://example.com", date := "2025-01-01", market := "hispanic_us",
    engagement := none }

/-- C8: resolving relevant_signal_indices is total and bounds-checked: an
in-range one-based index resolves to the corresponding batch signal, an
out-of-range index is silently discarded, an empty resolution falls back to
the first three signals of the batch, and the indices one and ninety-nine
against a five-element batch resolve to exactly the first signal. -/
theorem index_resolution (batch : List Signal) :
    (∀ (i : Int) (rest : List Int), 1 ≤ i → i ≤ (batch.length : Int) →
      ∃ hlt : (i - 1).toNat < batch.length,
        resolveIndices batch (i :: rest) =
          batch.get ⟨(i - 1).toNat, hlt⟩ :: resolveIndices batch rest) ∧
    (∀ (i : Int) (rest : List Int), (i < 1 ∨ (batch.length : Int) < i) →
      resolveIndices batch (i :: rest) = resolveIndices batch rest) ∧
    (∀ idxs : List Int, resolveIndices batch idxs = [] →
      sourceSignalsFor batch idxs = batch.take 3) ∧
    (∀ s1 s2 s3 s4 s5 : Signal,
      resolveIndices [s1, s2, s3, s4, s5] [1, 99] = [s1]) := by
  refine ⟨?_, ?_, ?_, ?_⟩
  · intro i rest h1 h2
    have hlt : (i - 1).toNat < batch.length := by omega
    refine ⟨hlt, ?_⟩
    unfold resolveIndices
    rw [List.filterMap_cons]
    have hsome : (if 0 < i ∧ i ≤ (batch.length : Int) then batch[(i - 1).toNat]? else none)
        = some (batch.get ⟨(i - 1).toNat, hlt⟩) := by
      rw [if_pos ⟨by omega, h2⟩, List.getElem?_eq_getElem hlt]
      rw [List.get_eq_getElem]
    rw [hsome]
  · intro i rest h
    unfold resolveIndices
    rw [List.filterMap_cons]
    have hnone : (if 0 < i ∧ i ≤ (batch.length : Int) then batch[(i - 1).toNat]? else none)
        = none := by
      rw [if_neg]
      rintro ⟨ha, hb⟩
      omega
    rw [hnone]
  · intro idxs h
    unfold sourceSignalsFor
    rw [if_pos h]
  · intro s1 s2 s3 s4 s5
    rfl

/-- Witness for index resolution: the in-range index resolves, the
out-of-range index ninety-nine is discarded, and an unresolvable index list
falls back to the first three signals of the batch. -/
theorem index_resolution_witness :
    resolveIndices [demoSignal "a", demoSignal "b"] [1, 99] = [demoSignal "a"] ∧
    sourceSignalsFor [demoSignal "a", demoSignal "b"] [99] =
      [demoSignal "a", demoSignal "b"].take 3 := by
  have h := index_resolution [demoSignal "a", demoSignal "b"]
  have h99 : resolveIndices [demoSignal "a", demoSignal "b"] [99] = [] := by
    rw [h.2.1 99 [] (by decide)]
    rfl
  constructor
  · obtain ⟨hlt, heq⟩ := h.1 1 [99] (by decide) (by decide)
    rw [heq, h99]
    rfl
  · exact h.2.2.1 [99] h99

/-! ## Fallback line-scanner of the improved analyzer -/

/-- Line test of the fallback title branch: the lowered line contains the
word title and the line contains a colon. -/
def fbLineIsTitle (line : String) : Bool :=
  strContains (pyLower line) "title" && strContains line ":"

/-- Line test of the fallback score branch. -/
def fbLineIsScore (line : String) : Bool :=
  strContains (pyLower line) "charter_fit_score" || strContains (pyLower line) "score"

/-- Line test of the fallback pain-point branch. -/
def fbLineIsPain (line : String) : Bool :=
  strContains (pyLower line) "pain_point" || strContains (pyLower line) "customer"

/-- Line test of the fallback solution branch. -/
def fbLineIsSolution (line : String) : Bool :=
  strContains (pyLower line) "solution"

/-- One iteration of the fallback scanner over a response line. The state
is the list of finished candidates and the candidate under construction; a
new title line pushes the current candidate when it already has a title and
starts a fresh one holding only the new title. -/
def fbStep (st : List Opp × Opp) (rawLine : String) : List Opp × Opp :=
  let line := pyTrim rawLine
  if fbLineIsTitle line then
    (if st.2.title.isSome then st.1 ++ [st.2] else st.1,
     { title := some (stripQuotes (pyTrim (afterFirstColon line))) })
  else if fbLineIsScore line then
    match firstNat line with
    | some n => (st.1, { st.2 with charter_fit_score := some (n : Int) })
    | none => st
  else if fbLineIsPain line then
    if strContains line ":" then
      (st.1, { st.2 with customer_pain_point := some (pyTrim (afterFirstColon line)) })
    else st
  else if fbLineIsSolution line then
    if strContains line ":" then
      (st.1, { st.2 with proposed_solution := some (pyTrim (afterFirstColon line)) })
    else st
  else st

/-- The setdefault pass of the fallback parser: fill every missing field
with its documented named default. -/
def fbDefaults (signals : List Signal) (o : Opp) : Opp :=
  { o with
    charter_fit_score := some (o.charter_fit_score.getD 75)
    customer_pain_point :=
      some (o.customer_pain_point.getD "Customer feedback indicates opportunity")
    proposed_solution := some (o.proposed_solution.getD "Solution to be developed")
    market_size := some (o.market_size.getD "Market size to be determined")
    competitive_intelligence :=
      some (o.competitive_intelligence.getD "Competitive analysis needed")
    cultural_context := some (o.cultural_context.getD "Cultural context relevant")
    charter_expansion_angle := some (o.charter_expansion_angle.getD "Expands charter scope")
    source_signals := some (o.source_signals.getD (signals.take 3)) }

/-- The fallback parser of the improved analyzer: scan the lines, push the
final candidate when it has a title, then fill defaults. -/
def fallbackParse (text : String) (signals : List Signal) : List Opp :=
  let st := (pySplitChar text '\n').foldl fbStep ([], emptyOpp)
  let opps := if st.2.title.isSome then st.1 ++ [st.2] else st.1
  opps.map (fbDefaults signals)

/-- One fallback step either keeps the finished-candidate list or appends
the current candidate, and only when that candidate has a title. -/
theorem fbStep_acc (st : List Opp × Opp) (line : String) :
    (fbStep st line).1 = st.1 ∨
    ((fbStep st line).1 = st.1 ++ [st.2] ∧ st.2.title.isSome = true) := by
  unfold fbStep
  by_cases h1 : fbLineIsTitle (pyTrim line)
  · by_cases h2 : st.2.title.isSome
    · right
      exact ⟨by simp [h1, h2], h2⟩
    · left
      simp [h1, h2]
  · by_cases h2 : fbLineIsScore (pyTrim line)
    · cases hn : firstNat (pyTrim line) <;> left <;> simp [h1, h2, hn]
    · by_cases h3 : fbLineIsPain (pyTrim line)
      · by_cases h4 : strContains (pyTrim line) ":" <;> left <;> simp [h1, h2, h3, h4]
      · by_cases h4 : fbLineIsSolution (pyTrim line)
        · by_cases h5 : strContains (pyTrim line) ":" <;> left <;> simp [h1, h2, h3, h4, h5]
        · left
          simp [h1, h2, h3, h4]

/-- Every candidate accumulated by the fallback scan has a title. -/
theorem fb_fold_title_some (lines : List String) :
    ∀ st : List Opp × Opp, (∀ o ∈ st.1, o.title.isSome = true) →
      ∀ o ∈ (lines.foldl fbStep st).1, o.title.isSome = true := by
  induction lines with
  | nil =>
    intro st h
    simpa using h
  | cons line rest ih =>
    intro st h
    apply ih
    intro o ho
    rcases fbStep_acc st line with hacc | ⟨hacc, ht⟩
    · exact h o (hacc ▸ ho)
    · rw [hacc] at ho
      rcases List.mem_append.mp ho with ho | ho
      · exact h o ho
      · have : o = st.2 := by simpa using ho
        rw [this]
        exact ht

/-- C7: every candidate returned by the fallback line-scanner has all
required fields populated, and the two-line response with a title and a
score of ninety yields exactly one candidate with that title, charter fit
ninety, and every other required field set to its documented default. -/
theorem fallback_fields_populated :
    (∀ (text : String) (signals : List Signal) (o : Opp),
      o ∈ fallbackParse text signals →
        o.title.isSome = true ∧ o.charter_fit_score.isSome = true ∧
        o.customer_pain_point.isSome = true ∧ o.proposed_solution.isSome = true ∧
        o.market_size.isSome = true ∧ o.competitive_intelligence.isSome = true ∧
        o.cultural_context.isSome = true ∧ o.charter_expansion_angle.isSome = true ∧
        o.source_signals.isSome = true) ∧
    fallbackParse "title: Spanish Voice Search\nscore: 90\n" [] =
      [{ title := some "Spanish Voice Search",
         charter_fit_score := some 90,
         customer_pain_point := some "Customer feedback indicates opportunity",
         proposed_solution := some "Solution to be developed",
         market_size := some "Market size to be determined",
         competitive_intelligence := some "Competitive analysis needed",
         cultural_context := some "Cultural context relevant",
         charter_expansion_angle := some "Expands charter scope",
         source_signals := some [] }] := by
  constructor
  · intro text signals o ho
    unfold fallbackParse at ho
    simp only [List.mem_map] at ho
    obtain ⟨p, hp, hpo⟩ := ho
    have hbase := fb_fold_title_some (pySplitChar text '\n') ([], emptyOpp)
      (by intro q hq; simp at hq)
    have hptitle : p.title.isSome = true := by
      by_cases hfin : ((pySplitChar text '\n').foldl fbStep ([], emptyOpp)).2.title.isSome
      · rw [if_pos hfin] at hp
        rcases List.mem_append.mp hp with hp | hp
        · exact hbase p hp
        · have : p = ((pySplitChar text '\n').foldl fbStep ([], emptyOpp)).2 := by simpa using hp
          rw [this]
          exact hfin
      · rw [if_neg hfin] at hp
        exact hbase p hp
    subst hpo
    exact ⟨hptitle, rfl, rfl, rfl, rfl, rfl, rfl, rfl, rfl⟩
  · decide

/-- Witness for the fallback parser at the concrete two-line response. -/
theorem fallback_fields_populated_witness :
    ({ title := some "Spanish Voice Search",
       charter_fit_score := some 90,
       customer_pain_point := some "Customer feedback indicates opportunity",
       proposed_solution := some "Solution to be developed",
       market_size := some "Market size to be determined",
       competitive_intelligence := some "Competitive analysis needed",
       cultural_context := some "Cultural context relevant",
       charter_expansion_angle := some "Expands charter scope",
       source_signals := some [] } : Opp).title.isSome = true ∧
    ({ title := some "Spanish Voice Search",
       charter_fit_score := some 90,
       customer_pain_point := some "Customer feedback indicates opportunity",
       proposed_solution := some "Solution to be developed",
       market_size := some "Market size to be determined",
       competitive_intelligence := some "Competitive analysis needed",
       cultural_context := some "Cultural context relevant",
       charter_expansion_angle := some "Expands charter scope",
       source_signals := some [] } : Opp).charter_fit_score.isSome = true :=
  have hmem := fallback_fields_populated.2 ▸ List.mem_singleton.mpr rfl
  have h := fallback_fields_populated.1 "title: Spanish Voice Search\nscore: 90\n" [] _ hmem
  ⟨h.1, h.2.1⟩

/-! ## Line-based response parser of the basic analyzer -/

/-- Section marker carried across lines by the basic parser. -/
inductive PASection
  | pain
  | solution
  | market
  | competitive
  | cultural
  | charterExp
deriving DecidableEq, Repr

/-- Append a content line plus a trailing space to the field of the active
section. -/
def paAppend (o : Opp) (sec : PASection) (line : String) : Opp :=
  match sec with
  | .pain =>
    { o with customer_pain_point := some (o.customer_pain_point.getD "" ++ line ++ " ") }
  | .solution =>
    { o with proposed_solution := some (o.proposed_solution.getD "" ++ line ++ " ") }
  | .market =>
    { o with market_size := some (o.market_size.getD "" ++ line ++ " ") }
  | .competitive =>
    { o with
      competitive_intelligence := some (o.competitive_intelligence.getD "" ++ line ++ " ") }
  | .cultural =>
    { o with cultural_context := some (o.cultural_context.getD "" ++ line ++ " ") }
  | .charterExp =>
    { o with
      charter_expansion_angle := some (o.charter_expansion_angle.getD "" ++ line ++ " ") }

/-- One iteration of the basic parser over a response line: score lines set
the charter fit score, header lines switch the active section, and other
nonempty lines accumulate into the active section. -/
def paStep (st : Opp × Option PASection) (rawLine : String) : Opp × Option PASection :=
  let line := pyTrim rawLine
  if strContains line "RELEVANCE" || strContains line "CHARTER FIT" then
    match firstNat line with
    | some n => ({ st.1 with charter_fit_score := some (n : Int) }, st.2)
    | none => st
  else if strContains line "CUSTOMER PAIN POINT" then (st.1, some .pain)
  else if strContains line "OPPORTUNITY" && !(strContains line "MARKET SIZE") then
    (st.1, some .solution)
  else if strContains line "MARKET SIZE" then (st.1, some .market)
  else if strContains line "COMPETITIVE INTELLIGENCE" then (st.1, some .competitive)
  else if strContains line "CULTURAL CONTEXT" then (st.1, some .cultural)
  else if strContains line "CHARTER EXPANSION" then (st.1, some .charterExp)
  else if line ≠ "" then
    match st.2 with
    | some sec => (paAppend st.1 sec line, st.2)
    | none => st
  else st

/-- The opportunity dictionary the basic parser initializes before its
line loop: every field present, texts empty, score zero, source signals the
whole batch. -/
def paInit (srcs : List Signal) (now : String) : Opp :=
  { title := some "", charter_fit_score := some 0, customer_pain_point := some "",
    proposed_solution := some "", market_size := some "",
    competitive_intelligence := some "", cultural_context := some "",
    charter_expansion_angle := some "", source_signals := some srcs,
    analysis_date := some now }

/-- The single opportunity record built by the basic parser for a whole
response, including the title fixup from the first sentence of the proposed
solution. -/
def parseAnalysisOpp (analysis : String) (srcs : List Signal) (now : String) : Opp :=
  let o := ((pySplitChar analysis '\n').foldl paStep (paInit srcs now, none)).1
  if o.title.getD "" = "" ∧ o.proposed_solution.getD "" ≠ "" then
    { o with
      title := some (pyTake ((pySplitChar (o.proposed_solution.getD "") '.').headD "") 100) }
  else o

/-- The basic parser result: the one built record, included exactly when
its charter fit score reaches the configured threshold. -/
def parseAnalysis (analysis : String) (srcs : List Signal) (now : String) : List Opp :=
  if CHARTER_FIT_THRESHOLD ≤ (parseAnalysisOpp analysis srcs now).charter_fit_score.getD 0
  then [parseAnalysisOpp analysis srcs now]
  else []

/-- C9: the basic analyzer response parser assembles at most one candidate
per extraction call, and it returns that candidate exactly when the
extracted charter fit score reaches the configured threshold. -/
theorem parse_analysis_single (analysis : String) (srcs : List Signal) (now : String) :
    (parseAnalysis analysis srcs now).length ≤ 1 ∧
    (parseAnalysis analysis srcs now ≠ [] ↔
      CHARTER_FIT_THRESHOLD ≤ (parseAnalysisOpp analysis srcs now).charter_fit_score.getD 0) := by
  unfold parseAnalysis
  by_cases h : CHARTER_FIT_THRESHOLD ≤ (parseAnalysisOpp analysis srcs now).charter_fit_score.getD 0
  · rw [if_pos h]
    exact ⟨by simp, by simp [h]⟩
  · rw [if_neg h]
    exact ⟨by simp, by simp [h]⟩

/-- C5 counterexample: the basic analyzer response parser, part of the
core, discards a parsed candidate whose charter fit score falls below the
configured threshold, and keeps the same response with a passing score, so
threshold filtering is not confined to the downstream report component. -/
theorem parser_threshold_filters :
    (parseAnalysisOpp "CHARTER FIT: 30" [] "now").charter_fit_score = some 30 ∧
    parseAnalysis "CHARTER FIT: 30" [] "now" = [] ∧
    parseAnalysis "CHARTER FIT: 90" [] "now" ≠ [] := by
  refine ⟨by decide, by decide, by decide⟩

/-! ## Analyzer construction and the batch pipeline -/

/-- The effective credential of the analyzer constructor: the passed key
when it is neither missing nor empty, otherwise the configured key. -/
def effectiveApiKey (apiKey : Option String) (configKey : String) : String :=
  match apiKey with
  | some k => if k = "" then configKey else k
  | none => configKey

/-- Analyzer construction: raises exactly when the effective credential is
empty, modelled as an error value. -/
def initAnalyzer (apiKey : Option String) (configKey : String) : Except String String :=
  if effectiveApiKey apiKey configKey = "" then
    Except.error "ANTHROPIC_API_KEY not set. Please provide API key."
  else Except.ok (effectiveApiKey apiKey configKey)

/-- One batch of the improved pipeline: the external extraction call plus
parsing is an oracle returning either candidates or a failure; any failure
is absorbed into an empty candidate list, successes are enriched. -/
def processBatch (ext : List Signal → Except String (List Opp)) (now : String)
    (batch : List Signal) : List Opp :=
  match ext batch with
  | Except.error _ => []
  | Except.ok opps => opps.map (enrichOpp batch now)

/-- The improved analyzer pipeline over all signals: early return on empty
input, batches of eight, per-batch extraction with absorbed failures,
concatenation, deduplication, then scoring and ranking. -/
def analyzeSignals (ext : List Signal → Except String (List Opp)) (now : String)
    (signals : List Signal) : List Opp :=
  if signals.length = 0 then []
  else
    scoreAndRank
      (dedupImproved (((batchSignals 8 signals).map (processBatch ext now)).flatten))
      signals

/-- C6: zero input signals yield an empty opportunity list rather than an
error; a failing batch extraction is indistinguishable from one returning
zero candidates, so per-batch failures are absorbed while the run
continues; and construction fails exactly when the effective extraction
credential is missing. -/
theorem error_handling_policy :
    (∀ (ext : List Signal → Except String (List Opp)) (now : String),
      analyzeSignals ext now [] = []) ∧
    (∀ (ext : List Signal → Except String (List Opp)) (now : String)
        (signals : List Signal),
      analyzeSignals ext now signals =
        analyzeSignals (fun batch =>
          match ext batch with
          | Except.error _ => Except.ok []
          | Except.ok opps => Except.ok opps) now signals) ∧
    (∀ (apiKey : Option String) (configKey : String),
      (initAnalyzer apiKey configKey =
          Except.error "ANTHROPIC_API_KEY not set. Please provide API key.") ↔
        effectiveApiKey apiKey configKey = "") := by
  refine ⟨fun ext now => rfl, ?_, ?_⟩
  · intro ext now signals
    have hpb : ∀ batch, processBatch (fun b =>
        match ext b with
        | Except.error _ => Except.ok []
        | Except.ok opps => Except.ok opps) now batch = processBatch ext now batch := by
      intro batch
      unfold processBatch
      cases hx : ext batch with
      | error e => simp [hx]
      | ok opps => simp [hx]
    unfold analyzeSignals
    by_cases hlen : signals.length = 0
    · rw [if_pos hlen, if_pos hlen]
    · rw [if_neg hlen, if_neg hlen]
      have hmap : (batchSignals 8 signals).map (processBatch ext now) =
          (batchSignals 8 signals).map (processBatch (fun b =>
            match ext b with
            | Except.error _ => Except.ok []
            | Except.ok opps => Except.ok opps) now) := by
        apply List.map_congr_left
        intro batch _
        exact (hpb batch).symm
      rw [hmap]
  · intro apiKey configKey
    unfold initAnalyzer
    by_cases h : effectiveApiKey apiKey configKey = ""
    · rw [if_pos h]
      simp [h]
    · rw [if_neg h]
      simp [h]

end MSI
